import Mathlib

/-!
Shallow embedding of the resilient paginated ingestion engine of the
word-scraping-tool repository (scraper: `fetchPageWithRetry`, the rate
limiter, the progress store, `scrapeProject`, `main`; see
src/src/transformer.ts).  Records are abstracted as natural numbers; the
JSON body of an HTTP response is abstracted to the part the program
inspects (truthiness of `resp.data` and the optional `issues` array).
-/

namespace WordScrape

/-- HTTP response as the code observes it: the status, the optional
`retry-after` header (in seconds, already parsed), and `resp.data`.
`data = none` models a falsy/absent body (`!resp.data`); `data = some d`
models a present JSON body `d`, where `d = none` means the body has no
`issues` array and `d = some l` means `d.issues = l`. -/
structure Response where
  status : Nat
  retryAfterHeader : Option Nat
  data : Option (Option (List Nat))
  deriving Repr, DecidableEq

/-- Input to one attempt of `fetchPageWithRetry`: either an HTTP response
arrives, or the request fails at network level with an error code string
(ECONNRESET / ETIMEDOUT / ECONNABORTED / anything else axios throws). -/
inductive AttemptInput where
  | http (r : Response)
  | netError (code : String)
  deriving Repr, DecidableEq

/-- Result of one attempt inside `fetchPageWithRetry`: the attempt either
returns `resp.data` (a resolved promise), or throws.  A throw carries the
delay the attempt itself slept before throwing (only the 429 branch sleeps
`retryAfter` inline; every other throw sleeps 0 inside the attempt). -/
inductive AttemptResult where
  | success (d : Option (List Nat))
  | failure (inAttemptDelay : Nat)
  deriving Repr, DecidableEq

/-- Milliseconds the 429 branch waits: `parseInt(retry-after) * 1000` when
the header is present, else 60000. -/
def retryAfterMs (r : Response) : Nat :=
  match r.retryAfterHeader with
  | some s => s * 1000
  | none => 60000

/-- Axios `validateStatus` exactly as written in the source:
`status < 500 || status === 429`.  When it returns `false` axios rejects
the promise with an HTTP error. -/
def validateStatus (status : Nat) : Bool :=
  decide (status < 500) || decide (status = 429)

/-- One attempt of `fetchPageWithRetry`, after the rate-limiter wait.
Mirrors the try/catch body: a network error code is wrapped (or rethrown)
and in every case propagates as a retryable throw; a response rejected by
`validateStatus` is an axios HTTP error, caught and rethrown (its code is
not a network code); a resolved 429 sleeps `retryAfter` then throws; a
resolved status ≥ 500 would throw (unreachable given `validateStatus`);
a falsy `resp.data` throws "Empty response"; otherwise `resp.data` is
returned. -/
def attemptOutcome : AttemptInput → AttemptResult
  | .netError _ => .failure 0
  | .http r =>
    if !validateStatus r.status then .failure 0
    else if r.status = 429 then .failure (retryAfterMs r)
    else if 500 ≤ r.status then .failure 0
    else match r.data with
      | none => .failure 0
      | some d => .success d

/-- p-retry backoff after failed attempt `k` (1-indexed), with the options
from the source (`minTimeout: 2000`, `maxTimeout: 60000`, default factor 2,
no randomization): `min(2000 * 2^(k-1), 60000)` milliseconds. -/
def backoffDelay (k : Nat) : Nat :=
  min (2000 * 2 ^ (k - 1)) 60000

/-- Outcome of one logical `fetchPageWithRetry` call: the resolved
`resp.data`, or rejection after retries are exhausted. -/
inductive FetchResult where
  | ok (d : Option (List Nat))
  | failed
  deriving Repr, DecidableEq

/-- Trace of one logical fetch call: its result, the number of attempts
made, and the wait in milliseconds before each retry attempt (entry `j`
is the delay between attempt `j+1` and attempt `j+2`; it is the sum of
any in-attempt sleep of the failed attempt and the p-retry backoff). -/
structure FetchTrace where
  result : FetchResult
  attempts : Nat
  waits : List Nat
  deriving Repr, DecidableEq

/-- The p-retry loop of `fetchPageWithRetry` with `retries: 5`: attempt
numbers run from 1; a failed attempt `k < 6` waits and is retried, a
failed attempt 6 rejects the call.  The list supplies the environment's
input for each attempt; an empty list means no further attempt happens. -/
def runFetchAux : Nat → List AttemptInput → FetchTrace
  | _, [] => ⟨.failed, 0, []⟩
  | k, i :: rest =>
    match attemptOutcome i with
    | .success d => ⟨.ok d, 1, []⟩
    | .failure w =>
      if k < 6 then
        let t := runFetchAux (k + 1) rest
        ⟨t.result, t.attempts + 1, (w + backoffDelay k) :: t.waits⟩
      else ⟨.failed, 1, []⟩

/-- One logical `fetchPageWithRetry` call, starting at attempt number 1. -/
def runFetch (inputs : List AttemptInput) : FetchTrace :=
  runFetchAux 1 inputs

/-- In-attempt sleep of an input: what the attempt itself waits before
throwing (nonzero only for a resolved 429). -/
def inDelay (i : AttemptInput) : Nat :=
  match attemptOutcome i with
  | .failure w => w
  | .success _ => 0

/-- Whether an input makes the attempt throw (i.e. is retried). -/
def isRetryable (i : AttemptInput) : Bool :=
  match attemptOutcome i with
  | .failure _ => true
  | .success _ => false

/-! Rate limiter.  The scraper keeps a single `lastRequestTime` and, at the
top of each attempt, waits until at least `MIN_REQUEST_INTERVAL = 200` ms
have passed since it.  The wall clock is nondeterministic but monotone: we
parametrize each acquisition by `arriveLag` (how far the clock has moved
past the previous grant when `Date.now()` is first read) and `postLag`
(how much additional real time passes beyond the requested sleep before
the final `Date.now()` reading that becomes the new `lastRequestTime`). -/

/-- One rate-limiter acquisition.  `last` is the stored
`lastRequestTime`; the entry reading is `now = last + arriveLag`;
`timeSinceLastRequest = now - last`; when it is below 200 the code sleeps
the difference (a sleep of `d` ms resumes no earlier than `d` ms later);
the returned value is the `Date.now()` recorded as the new
`lastRequestTime`, i.e. the grant time. -/
def rlAcquire (last arriveLag postLag : Nat) : Nat :=
  let now := last + arriveLag
  let timeSince := now - last
  let wait := if timeSince < 200 then 200 - timeSince else 0
  now + wait + postLag

/-- Grant times of a sequence of acquisitions, one per environment choice
`(arriveLag, postLag)`, threading `lastRequestTime` through. -/
def rlGrants : Nat → List (Nat × Nat) → List Nat
  | _, [] => []
  | last, (a, p) :: rest =>
    let g := rlAcquire last a p
    g :: rlGrants g rest

/-! Progress store.  `progress.json` is read once at startup:
`progress = {}` and then, if the file exists,
`progress = JSON.parse(readFileSync(...))` with no try/catch, so a file
that exists but fails to parse raises a SyntaxError to the caller. -/

/-- Observable state of `progress.json` at startup: absent, present but
failing `JSON.parse`, or present and parsing to a cursor mapping
(association list sourceId ↦ lastStartAt). -/
inductive ProgressFile where
  | absent
  | malformed
  | valid (m : List (String × Nat))
  deriving Repr, DecidableEq

/-- Startup load of `progress.json` exactly as the source performs it:
`let progress = {}` then, when the file exists, an unguarded
`JSON.parse`, which throws on a malformed file. -/
def loadProgress : ProgressFile → Except String (List (String × Nat))
  | .absent => .ok []
  | .malformed => .error "SyntaxError: Unexpected token in JSON"
  | .valid m => .ok m

/-- Update `progress[project] = { lastStartAt: c }` in the mapping. -/
def upsert (m : List (String × Nat)) (k : String) (c : Nat) : List (String × Nat) :=
  match m with
  | [] => [(k, c)]
  | (k', c') :: rest => if k' = k then (k, c) :: rest else (k', c') :: upsert rest k c

/-- Read `progress[project]?.lastStartAt || 0`. -/
def lookupCursor (m : List (String × Nat)) (k : String) : Nat :=
  match m.lookup k with
  | some c => c
  | none => 0

/-! Ingestion loop (`scrapeProject`). -/

/-- What one `fetchPageWithRetry` call delivers to `scrapeProject`: the
resolved `data` (whose optional `issues` field the loop reads as
`data.issues || []`), or a rejection caught by the surrounding try/catch. -/
inductive PageResult where
  | ok (d : Option (List Nat))
  | failed
  deriving Repr, DecidableEq

/-- Collapse a fetch trace to what `scrapeProject` observes. -/
def pageOf (inputs : List AttemptInput) : PageResult :=
  match (runFetch inputs).result with
  | .ok d => .ok d
  | .failed => .failed

/-- Why the `while (true)` loop of `scrapeProject` ended: the limit check
broke out before (or right after) a page, the fetch threw, a page came
back with zero issues, or the supplied environment ran out of responses
(the run is interrupted at that point). -/
inductive StopOutcome where
  | limitReached
  | fetchFailed
  | exhausted
  | interrupted
  deriving Repr, DecidableEq

/-- Observable result of one `scrapeProject` run: the `allIssues` array
written to `RAW_DIR/<project>.json` at the end, the final `startAt`, the
successive cursors persisted by the in-loop saves, the final
`totalFetched`, the number of `fetchPageWithRetry` calls, and why the
loop stopped. -/
structure RunResult where
  fileContents : List Nat
  cursorEnd : Nat
  savedCursors : List Nat
  totalFetched : Nat
  fetchCount : Nat
  stop : StopOutcome
  deriving Repr, DecidableEq

/-- JS truthiness test `projectLimit && totalFetched >= projectLimit`:
a missing limit and a limit of 0 are both falsy. -/
def limitHit (limit : Option Nat) (totalFetched : Nat) : Bool :=
  match limit with
  | some l => decide (l ≠ 0) && decide (l ≤ totalFetched)
  | none => false

/-- The `while (true)` body of `scrapeProject`: check the limit, fetch the
page at `startAt`, break on a caught fetch error, break on an empty
`issues` array, otherwise push the issues, advance `startAt` and
`totalFetched`, persist progress, and re-check the limit. -/
def scrapeLoop (limit : Option Nat) :
    List PageResult → Nat → Nat → List Nat → List Nat → Nat → RunResult
  | inputs, startAt, totalFetched, acc, saved, fc =>
    if limitHit limit totalFetched then
      ⟨acc, startAt, saved, totalFetched, fc, .limitReached⟩
    else
      match inputs with
      | [] => ⟨acc, startAt, saved, totalFetched, fc, .interrupted⟩
      | p :: rest =>
        match p with
        | .failed => ⟨acc, startAt, saved, totalFetched, fc + 1, .fetchFailed⟩
        | .ok d =>
          let issues := d.getD []
          if issues.isEmpty then
            ⟨acc, startAt, saved, totalFetched, fc + 1, .exhausted⟩
          else
            let startAt' := startAt + issues.length
            let tf' := totalFetched + issues.length
            let acc' := acc ++ issues
            let saved' := saved ++ [startAt']
            if limitHit limit tf' then
              ⟨acc', startAt', saved', tf', fc + 1, .limitReached⟩
            else
              scrapeLoop limit rest startAt' tf' acc' saved' (fc + 1)

/-- Per-project limit `PER_PROJECT_LIMITS?.[project] ?? MAX_ISSUES`. -/
def projectLimit (perLimits : Option (List (String × Nat))) (maxIssues : Option Nat)
    (project : String) : Option Nat :=
  match perLimits.bind (fun l => l.lookup project) with
  | some l => some l
  | none => maxIssues

/-- One `scrapeProject` run: start from the persisted cursor
(`progress[project]?.lastStartAt || 0`), with `allIssues = []`,
`totalFetched = 0`, and loop over the environment's page results. -/
def scrapeProject (perLimits : Option (List (String × Nat))) (maxIssues : Option Nat)
    (progress : List (String × Nat)) (project : String)
    (inputs : List PageResult) : RunResult :=
  scrapeLoop (projectLimit perLimits maxIssues project) inputs
    (lookupCursor progress project) 0 [] [] 0

/-- The final `fs.writeFileSync(filePath, JSON.stringify(allIssues))`:
whatever the raw file held before, it is replaced wholesale by this run's
accumulated issues. -/
def writeRaw (_previous : Option (List Nat)) (contents : List Nat) : Option (List Nat) :=
  some contents

/-- In-memory progress mapping after a run: each save upserted
`progress[project]`, so the end state records the last saved cursor, and
a run that saved nothing leaves the mapping untouched. -/
def progressAfter (progress : List (String × Nat)) (project : String)
    (r : RunResult) : List (String × Nat) :=
  match r.savedCursors.getLast? with
  | some c => upsert progress project c
  | none => progress

/-- The `main` loop of the scraper: `for (const project of PROJECTS) await
scrapeProject(project)`. `scrapeProject` absorbs fetch failures (the
try/catch around the fetch breaks the loop instead of throwing), so every
listed project gets a run, each seeing the progress mapping left by its
predecessors. -/
def mainRun (perLimits : Option (List (String × Nat))) (maxIssues : Option Nat) :
    List String → List (String × Nat) → (String → List PageResult) →
    List (String × RunResult)
  | [], _, _ => []
  | p :: rest, progress, env =>
    let r := scrapeProject perLimits maxIssues progress p (env p)
    (p, r) :: mainRun perLimits maxIssues rest (progressAfter progress p r) env

/-- Sum of the lengths of a list of pages. -/
def sumLen (pages : List (List Nat)) : Nat :=
  (pages.map List.length).sum

/-- Page results for a list of successful non-empty fetches, each a JSON
body with an `issues` array. -/
def oks (pages : List (List Nat)) : List PageResult :=
  pages.map (fun l => PageResult.ok (some l))

/-- Cursor values persisted while processing `pages` from start `c0`: the
running partial sums `c0 + |page 1| + ... + |page k|`. -/
def cursorTrail (c0 : Nat) (pages : List (List Nat)) : List Nat :=
  (List.range pages.length).map (fun k => c0 + sumLen (pages.take (k + 1)))

/-- Length of the issues array a page result delivers to the loop. -/
def pageLen (p : PageResult) : Nat :=
  match p with
  | .ok d => (d.getD []).length
  | .failed => 0

theorem sumLen_nil : sumLen [] = 0 := rfl

theorem sumLen_cons (p : List Nat) (ps : List (List Nat)) :
    sumLen (p :: ps) = p.length + sumLen ps := by
  simp [sumLen]

theorem sumLen_append (ps qs : List (List Nat)) :
    sumLen (ps ++ qs) = sumLen ps + sumLen qs := by
  simp [sumLen]

theorem cursorTrail_nil (c0 : Nat) : cursorTrail c0 [] = [] := rfl

theorem cursorTrail_cons (c0 : Nat) (p : List Nat) (ps : List (List Nat)) :
    cursorTrail c0 (p :: ps) =
      (c0 + p.length) :: cursorTrail (c0 + p.length) ps := by
  simp only [cursorTrail, List.length_cons, List.range_succ_eq_map, List.map_cons,
    List.map_map, List.cons.injEq]
  constructor
  · simp [sumLen_cons, sumLen_nil]
  · apply List.map_congr_left
    intro k _
    simp [Function.comp, List.take_cons, sumLen_cons]
    omega

theorem cursorTrail_append (c0 : Nat) (ps qs : List (List Nat)) :
    cursorTrail c0 (ps ++ qs) =
      cursorTrail c0 ps ++ cursorTrail (c0 + sumLen ps) qs := by
  induction ps generalizing c0 with
  | nil => simp [cursorTrail_nil, sumLen_nil]
  | cons p ps ih =>
    simp only [List.cons_append, cursorTrail_cons, sumLen_cons, ih]
    simp [Nat.add_assoc]

theorem cursorTrail_getLast (c0 : Nat) (p : List Nat) (ps : List (List Nat)) :
    (cursorTrail c0 (p :: ps)).getLast? = some (c0 + sumLen (p :: ps)) := by
  induction ps generalizing c0 p with
  | nil => simp [cursorTrail_cons, cursorTrail_nil, sumLen_cons, sumLen_nil]
  | cons q qs ih =>
    rw [cursorTrail_cons, cursorTrail_cons]
    rw [show (c0 + p.length) :: (c0 + p.length + q.length) ::
        cursorTrail (c0 + p.length + q.length) qs =
        (c0 + p.length) :: ((c0 + p.length + q.length) ::
        cursorTrail (c0 + p.length + q.length) qs) from rfl]
    rw [List.getLast?_cons_cons]
    rw [← cursorTrail_cons]
    rw [ih]
    simp [sumLen_cons]
    omega

theorem cursorTrail_chain (c0 : Nat) (pages : List (List Nat)) :
    List.Chain' (· ≤ ·) (c0 :: cursorTrail c0 pages) := by
  induction pages generalizing c0 with
  | nil => simp [cursorTrail_nil]
  | cons p ps ih =>
    rw [cursorTrail_cons]
    exact List.Chain'.cons (Nat.le_add_right c0 p.length) (ih (c0 + p.length))

theorem oks_cons (p : List Nat) (ps : List (List Nat)) :
    oks (p :: ps) = PageResult.ok (some p) :: oks ps := rfl

/-- Central unrolling lemma: as long as every supplied page is non-empty
and the limit check stays false on every running total, the loop consumes
the whole prefix of successful pages, appending their issues, advancing
the cursor, saving after each page, and counting one fetch per page. -/
theorem scrapeLoop_oks (limit : Option Nat) (pages : List (List Nat))
    (rest : List PageResult) (startAt tf fc : Nat) (acc saved : List Nat)
    (hne : ∀ l ∈ pages, l ≠ [])
    (hlim : ∀ k, k ≤ pages.length → limitHit limit (tf + sumLen (pages.take k)) = false) :
    scrapeLoop limit (oks pages ++ rest) startAt tf acc saved fc =
      scrapeLoop limit rest (startAt + sumLen pages) (tf + sumLen pages)
        (acc ++ pages.flatten) (saved ++ cursorTrail startAt pages)
        (fc + pages.length) := by
  induction pages generalizing rest startAt tf fc acc saved with
  | nil =>
    simp [oks, sumLen_nil, cursorTrail_nil]
  | cons p ps ih =>
    have hp : p ≠ [] := hne p (by simp)
    have h0 : limitHit limit tf = false := by
      have := hlim 0 (Nat.zero_le _)
      simpa [sumLen_nil] using this
    have h1 : limitHit limit (tf + p.length) = false := by
      have := hlim 1 (by simp)
      simpa [List.take_cons, sumLen_cons, sumLen_nil] using this
    have hpe : p.isEmpty = false := by
      simp [List.isEmpty_iff, hp]
    rw [oks_cons, List.cons_append, scrapeLoop]
    simp only [h0, Bool.false_eq_true, if_false, Option.getD_some, hpe, h1]
    rw [ih rest (startAt + p.length) (tf + p.length) (fc + 1) (acc ++ p)
      (saved ++ [startAt + p.length])
      (fun l hl => hne l (by simp [hl]))
      (fun k hk => by
        have := hlim (k + 1) (by simpa using Nat.succ_le_succ hk)
        simpa [List.take_cons, sumLen_cons, Nat.add_assoc] using this)]
    rw [cursorTrail_cons, sumLen_cons]
    simp [Nat.add_assoc, List.append_assoc, Nat.add_comm 1 ps.length]

theorem lookupCursor_upsert (m : List (String × Nat)) (k : String) (c : Nat) :
    lookupCursor (upsert m k c) k = c := by
  induction m with
  | nil => simp [upsert, lookupCursor, List.lookup]
  | cons kv rest ih =>
    obtain ⟨k', c'⟩ := kv
    by_cases h : k' = k
    · simp [upsert, h, lookupCursor, List.lookup]
    · have hbeq : (k == k') = false := by
        simp only [beq_eq_false_iff_ne, ne_eq]
        exact fun he => h he.symm
      simp only [upsert]
      rw [if_neg h]
      simp only [lookupCursor, List.lookup, hbeq]
      exact ih

theorem mainRun_projects (perLimits : Option (List (String × Nat)))
    (maxIssues : Option Nat) (projects : List String)
    (progress : List (String × Nat)) (env : String → List PageResult) :
    (mainRun perLimits maxIssues projects progress env).map Prod.fst = projects := by
  induction projects generalizing progress with
  | nil => rfl
  | cons p rest ih => simp [mainRun, ih]

theorem mainRun_cons (perLimits : Option (List (String × Nat)))
    (maxIssues : Option Nat) (p : String) (rest : List String)
    (progress : List (String × Nat)) (env : String → List PageResult) :
    mainRun perLimits maxIssues (p :: rest) progress env =
      (p, scrapeProject perLimits maxIssues progress p (env p)) ::
        mainRun perLimits maxIssues rest
          (progressAfter progress p
            (scrapeProject perLimits maxIssues progress p (env p))) env := rfl

/-- Attempts bound of the p-retry loop: starting from attempt number `k ≤ 6`,
at most `7 - k` further attempts happen. -/
theorem runFetchAux_attempts (inputs : List AttemptInput) :
    ∀ k, k ≤ 6 → (runFetchAux k inputs).attempts ≤ 7 - k := by
  induction inputs with
  | nil => intro k _; simp [runFetchAux]
  | cons i rest ih =>
    intro k hk
    rw [runFetchAux]
    cases h : attemptOutcome i with
    | success d => simp; omega
    | failure w =>
      dsimp only
      by_cases hk6 : k < 6
      · rw [if_pos hk6]
        have := ih (k + 1) (by omega)
        dsimp only
        omega
      · rw [if_neg hk6]
        simp; omega

/-- Trace of a fetch whose first `fails.length ≤ 5` attempts (numbered from
`k`) throw and whose next attempt resolves: every failure is retried, the
wait before retry `j` is the failed attempt's in-attempt sleep plus the
p-retry backoff for attempt number `k + j - 1`. -/
theorem runFetchAux_waits (fails : List AttemptInput) (i : AttemptInput)
    (rest : List AttemptInput) (d : Option (List Nat)) :
    ∀ k, 1 ≤ k → k + fails.length ≤ 6 →
    (∀ j ∈ fails, isRetryable j = true) →
    attemptOutcome i = .success d →
    runFetchAux k (fails ++ i :: rest) =
      ⟨.ok d, fails.length + 1,
        (List.range fails.length).map
          (fun j => inDelay (fails.getD j (.netError "")) + backoffDelay (k + j))⟩ := by
  induction fails with
  | nil =>
    intro k _ _ _ hs
    simp [runFetchAux, hs]
  | cons f fs ih =>
    intro k hk1 hk6 hf hs
    have hff : isRetryable f = true := hf f (by simp)
    rw [List.cons_append, runFetchAux]
    cases hfo : attemptOutcome f with
    | success d' => rw [isRetryable, hfo] at hff; simp at hff
    | failure w =>
      have hk : k < 6 := by simp at hk6; omega
      dsimp only
      rw [if_pos hk]
      rw [ih (k + 1) (by omega) (by simp at hk6 ⊢; omega)
        (fun j hj => hf j (by simp [hj])) hs]
      dsimp only
      have hw : inDelay f = w := by rw [inDelay, hfo]
      simp only [FetchTrace.mk.injEq, List.length_cons, true_and]
      rw [List.range_succ_eq_map, List.map_cons, List.map_map]
      simp only [List.cons.injEq]
      constructor
      · simp [List.getD_cons_zero, hw]
      · apply List.map_congr_left
        intro j _
        simp only [Function.comp_apply, List.getD_cons_succ]
        have harith : k + 1 + j = k + (j + 1) := by omega
        rw [harith]

/-- Every acquisition is granted at least 200 ms after the stored
`lastRequestTime`, whatever the clock does. -/
theorem rlAcquire_ge (last a p : Nat) : last + 200 ≤ rlAcquire last a p := by
  simp only [rlAcquire, Nat.add_sub_cancel_left]
  split <;> omega

theorem rlGrants_length (env : List (Nat × Nat)) :
    ∀ last, (rlGrants last env).length = env.length := by
  induction env with
  | nil => intro last; rfl
  | cons e rest ih => intro last; simp [rlGrants, ih]

theorem rlGrants_head_ge (e : Nat × Nat) (env : List (Nat × Nat)) (last : Nat) :
    last + 200 ≤ (rlGrants last (e :: env)).getD 0 0 := by
  cases e with
  | mk a p => simpa [rlGrants] using rlAcquire_ge last a p

/-- Consecutive grants are at least 200 ms apart. -/
theorem rlGrants_gap (env : List (Nat × Nat)) :
    ∀ last i, i + 1 < (rlGrants last env).length →
      (rlGrants last env).getD i 0 + 200 ≤ (rlGrants last env).getD (i + 1) 0 := by
  induction env with
  | nil => intro last i h; simp [rlGrants] at h
  | cons e rest ih =>
    intro last i h
    cases e with
    | mk a p =>
      rw [rlGrants] at h ⊢
      cases i with
      | zero =>
        simp only [List.getD_cons_zero, List.getD_cons_succ]
        cases rest with
        | nil => simp [rlGrants_length] at h
        | cons e' rest' => exact rlGrants_head_ge e' rest' (rlAcquire last a p)
      | succ j =>
        simp only [List.getD_cons_succ]
        exact ih (rlAcquire last a p) j (by simpa using h)

/-- Elapsed time from the first grant to the last is at least
`(K - 1) * 200` ms for `K` grants. -/
theorem rlGrants_elapsed (env : List (Nat × Nat)) :
    ∀ last,
      (rlGrants last env).getD 0 0 + (env.length - 1) * 200 ≤
        (rlGrants last env).getD (env.length - 1) 0 := by
  induction env with
  | nil => intro last; simp [rlGrants]
  | cons e rest ih =>
    intro last
    cases e with
    | mk a p =>
      rw [rlGrants]
      cases rest with
      | nil => simp
      | cons e' rest' =>
        have hh := rlGrants_head_ge e' rest' (rlAcquire last a p)
        have ht := ih (rlAcquire last a p)
        simp only [List.length_cons, Nat.add_sub_cancel, List.getD_cons_zero,
          List.getD_cons_succ] at ht ⊢
        omega

/-- General overshoot bound: with an active limit `L` and every supplied
page at most `P` records, a loop entered with `totalFetched < L` ends with
`totalFetched < L + P`. -/
theorem scrapeLoop_overshoot (L P : Nat) (inputs : List PageResult) :
    ∀ startAt tf acc saved fc,
      (∀ p ∈ inputs, pageLen p ≤ P) → tf < L →
      (scrapeLoop (some L) inputs startAt tf acc saved fc).totalFetched < L + P := by
  induction inputs with
  | nil =>
    intro startAt tf acc saved fc _ htf
    rw [scrapeLoop.eq_def]
    have h0 : limitHit (some L) tf = false := by
      simp [limitHit]; omega
    simp [h0]; omega
  | cons p rest ih =>
    intro startAt tf acc saved fc hp htf
    rw [scrapeLoop.eq_def]
    have h0 : limitHit (some L) tf = false := by
      simp [limitHit]; omega
    simp only [h0, Bool.false_eq_true, if_false]
    cases p with
    | failed => simp; omega
    | ok d =>
      dsimp only
      cases he : (d.getD []).isEmpty with
      | true => simp [he]; omega
      | false =>
        simp only [he, Bool.false_eq_true, if_false]
        have hlen : (d.getD []).length ≤ P := by
          have := hp (.ok d) (by simp)
          simpa [pageLen] using this
        cases hh : limitHit (some L) (tf + (d.getD []).length) with
        | true => simp [hh]; omega
        | false =>
          simp only [hh, Bool.false_eq_true, if_false]
          have : tf + (d.getD []).length < L := by
            simp [limitHit] at hh
            omega
          exact ih _ _ _ _ _ (fun q hq => hp q (by simp [hq])) this

theorem limitHit_mono (limit : Option Nat) (a b : Nat) (hab : b ≤ a)
    (h : limitHit limit a = false) : limitHit limit b = false := by
  cases limit with
  | none => rfl
  | some l =>
    simp only [limitHit, Bool.and_eq_false_iff, decide_eq_false_iff_not] at h ⊢
    omega

theorem scrapeLoop_nil (limit : Option Nat) (startAt tf fc : Nat)
    (acc saved : List Nat) (h : limitHit limit tf = false) :
    scrapeLoop limit [] startAt tf acc saved fc =
      ⟨acc, startAt, saved, tf, fc, .interrupted⟩ := by
  rw [scrapeLoop.eq_def]
  simp [h]

theorem scrapeLoop_failed (limit : Option Nat) (rest : List PageResult)
    (startAt tf fc : Nat) (acc saved : List Nat) (h : limitHit limit tf = false) :
    scrapeLoop limit (PageResult.failed :: rest) startAt tf acc saved fc =
      ⟨acc, startAt, saved, tf, fc + 1, .fetchFailed⟩ := by
  rw [scrapeLoop.eq_def]
  simp [h]

theorem scrapeLoop_empty (limit : Option Nat) (rest : List PageResult)
    (startAt tf fc : Nat) (acc saved : List Nat) (h : limitHit limit tf = false) :
    scrapeLoop limit (PageResult.ok (some []) :: rest) startAt tf acc saved fc =
      ⟨acc, startAt, saved, tf, fc + 1, .exhausted⟩ := by
  rw [scrapeLoop.eq_def]
  simp [h]

theorem cursorTrail_getLast_ne (c0 : Nat) (pages : List (List Nat))
    (h : pages ≠ []) :
    (cursorTrail c0 pages).getLast? = some (c0 + sumLen pages) := by
  cases pages with
  | nil => exact absurd rfl h
  | cons p ps => exact cursorTrail_getLast c0 p ps

/-! Claim theorems. -/

/-- C1: the spec says any HTTP 4xx other than 429 (e.g. 404) yields an
immediate `FatalFailure`, is never a success and is never retried.  The
code does the opposite: `validateStatus` resolves every status below 500,
nothing ever checks for a 4xx, and there is no abort path in the retry
loop.  A 404 whose JSON body lacks an `issues` array is returned as a
success on the first attempt (and the ingestion loop then treats it as
exhaustion of the source); a 404 with a falsy body is retried as an
"empty response" through all 6 attempts. -/
theorem c1_fourOhFour_not_fatal :
    runFetch [.http ⟨404, none, some none⟩] = ⟨.ok none, 1, []⟩ ∧
    (runFetch (List.replicate 6 (.http ⟨404, none, none⟩))).attempts = 6 ∧
    (scrapeProject none none [] "SPARK"
      [pageOf [.http ⟨404, none, some none⟩]]).stop = .exhausted := by
  decide

/-- C2: the spec says loading a persisted progress document that is absent
or fails to parse yields an empty cursor mapping and never raises.  The
code only handles absence: `progress = {}` is the default, but when the
file exists the `JSON.parse` call is not wrapped in any try/catch, so a
malformed file raises a SyntaxError to the caller (module top level)
instead of yielding an empty mapping. -/
theorem c2_malformed_progress_raises :
    loadProgress .malformed = .error "SyntaxError: Unexpected token in JSON" ∧
    loadProgress .absent = .ok [] :=
  ⟨rfl, rfl⟩

/-- C4 counterexample: on a 429 with `retry-after: 1` followed by a
success, the observed wait before the retry is 1000 + 2000 = 3000 ms —
the sum of the server-suggested delay and the backoff-schedule delay for
attempt 1 — not their maximum (2000) and not the retry-after value
alone (1000), refuting the claimed max/precedence semantics. -/
theorem c4_wait_sum_cex :
    (runFetch [.http ⟨429, some 1, some none⟩,
      .http ⟨200, none, some (some [7])⟩]).waits = [3000] ∧
    ¬ (runFetch [.http ⟨429, some 1, some none⟩,
      .http ⟨200, none, some (some [7])⟩]).waits = [max 1000 2000] ∧
    ¬ (runFetch [.http ⟨429, some 1, some none⟩,
      .http ⟨200, none, some (some [7])⟩]).waits = [1000] := by
  decide

/-- C4 amended: the delay before retry attempt k (1-indexed) equals the
failed attempt's in-attempt sleep plus `min(2s·2^(k-1), 60s)`; the
in-attempt sleep is the server-suggested 429 delay (`retry-after`
seconds × 1000, defaulting to 60 s) for a resolved 429 and 0 for every
other retryable failure — i.e. on a 429 the observed wait is the SUM of
the server-suggested delay and the backoff-schedule delay, never their
maximum. -/
theorem c4_retry_delay_formula (fails : List AttemptInput) (i : AttemptInput)
    (rest : List AttemptInput) (d : Option (List Nat))
    (hf : ∀ j ∈ fails, isRetryable j = true) (hlen : fails.length ≤ 5)
    (hs : attemptOutcome i = .success d) :
    (runFetch (fails ++ i :: rest)).waits =
      (List.range fails.length).map
        (fun j => inDelay (fails.getD j (.netError "")) + min (2000 * 2 ^ j) 60000) ∧
    (∀ r : Response, r.status = 429 → inDelay (.http r) = retryAfterMs r) ∧
    (∀ j, isRetryable j = true →
      (∀ r : Response, j = .http r → r.status ≠ 429) → inDelay j = 0) := by
  refine ⟨?_, ?_, ?_⟩
  · rw [runFetch, runFetchAux_waits fails i rest d 1 (by omega) (by omega) hf hs]
    apply List.map_congr_left
    intro j _
    have hj1 : 1 + j - 1 = j := by omega
    rw [backoffDelay, hj1]
  · intro r h
    simp [inDelay, attemptOutcome, validateStatus, h]
  · intro j hj hr
    cases j with
    | netError code => rfl
    | http r =>
      have hne : r.status ≠ 429 := hr r rfl
      rw [inDelay, attemptOutcome]
      cases hv : validateStatus r.status with
      | false => simp
      | true =>
        simp only [hv, Bool.not_true, Bool.false_eq_true, if_false]
        rw [if_neg hne]
        by_cases h5 : 500 ≤ r.status
        · rw [if_pos h5]
        · rw [if_neg h5]
          cases hd : r.data with
          | none => simp
          | some d' =>
            exfalso
            rw [isRetryable, attemptOutcome] at hj
            simp only [hv, Bool.not_true, Bool.false_eq_true, if_false] at hj
            rw [if_neg hne, if_neg h5, hd] at hj
            simp at hj

/-- C4 witness: the amended formula evaluated at the counterexample input
(one 429 failure with retry-after 1 s, then a success). -/
theorem c4_retry_delay_formula_witness :
    (runFetch ([.http ⟨429, some 1, some none⟩] ++
      [.http ⟨200, none, some (some [7])⟩])).waits = [3000] := by
  have h := (c4_retry_delay_formula [.http ⟨429, some 1, some none⟩]
    (.http ⟨200, none, some (some [7])⟩) [] (some [7])
    (by decide) (by decide) (by decide)).1
  rw [h]
  decide

/-- C5 counterexample: six consecutive 503 responses produce 6 attempts —
the initial attempt plus the 5 p-retry retries — before the call fails,
so "at most 5 attempts total" is false (6 > 5).  The five backoff waits
2 s, 4 s, 8 s, 16 s, 32 s follow the schedule. -/
theorem c5_six_attempts_cex :
    runFetch (List.replicate 6 (.http ⟨503, none, none⟩)) =
      ⟨.failed, 6, [2000, 4000, 8000, 16000, 32000]⟩ ∧
    ¬ (runFetch (List.replicate 6 (.http ⟨503, none, none⟩))).attempts ≤ 5 := by
  decide

/-- C5 amended: every logical fetch call makes at most 6 attempts total
(the initial attempt plus up to 5 retries); an HTTP 503 is retried 5
times before the last failure is surfaced as terminal for the call. -/
theorem c5_attempt_budget :
    (∀ inputs : List AttemptInput, (runFetch inputs).attempts ≤ 6) ∧
    runFetch (List.replicate 6 (.http ⟨503, none, none⟩)) =
      ⟨.failed, 6, [2000, 4000, 8000, 16000, 32000]⟩ := by
  constructor
  · intro inputs
    simpa using runFetchAux_attempts inputs 1 (by omega)
  · decide

/-- C3: the raw output file written at the end of a `scrapeProject` run
holds exactly the issues fetched during that run (`allIssues` starts
empty and the final `writeFileSync` replaces the file wholesale); a
resumed run — persisted cursor `c0 > 0` — therefore loses the records of
earlier interrupted runs even though its cursor starts past them. -/
theorem c3_raw_file_overwritten (perLimits : Option (List (String × Nat)))
    (maxIssues : Option Nat) (progress : List (String × Nat)) (project : String)
    (prevFile : Option (List Nat)) (pages : List (List Nat))
    (hne : ∀ l ∈ pages, l ≠ [])
    (_hres : 0 < lookupCursor progress project)
    (hlim : ∀ k, k ≤ pages.length →
      limitHit (projectLimit perLimits maxIssues project)
        (sumLen (pages.take k)) = false) :
    let c0 := lookupCursor progress project
    let r := scrapeProject perLimits maxIssues progress project
      (oks pages ++ [PageResult.ok (some [])])
    r.fileContents = pages.flatten ∧
    writeRaw prevFile r.fileContents = some pages.flatten ∧
    r.cursorEnd = c0 + sumLen pages ∧
    ∀ x ∈ prevFile.getD [], x ∉ pages.flatten →
      x ∉ (writeRaw prevFile r.fileContents).getD [] := by
  intro c0 r
  have hrun : r = ⟨pages.flatten, c0 + sumLen pages, cursorTrail c0 pages,
      sumLen pages, pages.length + 1, .exhausted⟩ := by
    show scrapeProject _ _ _ _ _ = _
    rw [scrapeProject,
      scrapeLoop_oks (projectLimit perLimits maxIssues project) pages
        [PageResult.ok (some [])] (lookupCursor progress project) 0 0 [] [] hne
        (fun k hk => by simpa using hlim k hk),
      scrapeLoop_empty _ _ _ _ _ _ _
        (by simpa using hlim pages.length le_rfl)]
    simp
  rw [hrun]
  refine ⟨rfl, rfl, rfl, ?_⟩
  intro x _ hnx hmem
  exact hnx (by simpa [writeRaw] using hmem)

/-- C3 witness: a resumed run (cursor 7) over two pages followed by
exhaustion; the raw file holds exactly this run's five records and the
prior file contents are gone. -/
theorem c3_raw_file_overwritten_witness :
    (scrapeProject none none [("SPARK", 7)] "SPARK"
        (oks [[1, 2], [3, 4, 5]] ++ [PageResult.ok (some [])])).fileContents =
      [1, 2, 3, 4, 5] ∧
    writeRaw (some [9, 10]) [1, 2, 3, 4, 5] = some [1, 2, 3, 4, 5] := by
  have h := c3_raw_file_overwritten none none [("SPARK", 7)] "SPARK"
    (some [9, 10]) [[1, 2], [3, 4, 5]] (by decide) (by decide)
    (fun k _ => rfl)
  exact ⟨h.1, rfl⟩

/-- C6: within a run the persisted cursor sequence is the running partial
sums of page sizes from the starting cursor, hence non-decreasing, and a
save happens exactly once per successful page; after an interruption the
next run resumes from the last persisted cursor, and the concatenated
cursor sequences of the interrupted run and the resumed run are exactly
the cursor sequence of an uninterrupted run over the same pages (no gaps,
no overlap); after N pages the cursor equals the starting cursor plus the
sum of all page sizes, across the restart. -/
theorem c6_cursor_monotone_resumable (perLimits : Option (List (String × Nat)))
    (maxIssues : Option Nat) (progress : List (String × Nat)) (project : String)
    (P1 P2 : List (List Nat))
    (hne1 : ∀ l ∈ P1, l ≠ []) (hne2 : ∀ l ∈ P2, l ≠ [])
    (hp1 : P1 ≠ [])
    (hlimc : ∀ k, k ≤ (P1 ++ P2).length →
      limitHit (projectLimit perLimits maxIssues project)
        (sumLen ((P1 ++ P2).take k)) = false) :
    let c0 := lookupCursor progress project
    let r1 := scrapeProject perLimits maxIssues progress project (oks P1)
    let r2 := scrapeProject perLimits maxIssues
      (progressAfter progress project r1) project (oks P2)
    r1.savedCursors = cursorTrail c0 P1 ∧
    List.Chain' (· ≤ ·) (c0 :: r1.savedCursors) ∧
    r1.cursorEnd = c0 + sumLen P1 ∧
    lookupCursor (progressAfter progress project r1) project = c0 + sumLen P1 ∧
    r2.savedCursors = cursorTrail (c0 + sumLen P1) P2 ∧
    r1.savedCursors ++ r2.savedCursors =
      (scrapeProject perLimits maxIssues progress project
        (oks (P1 ++ P2))).savedCursors ∧
    List.Chain' (· ≤ ·) (c0 :: (r1.savedCursors ++ r2.savedCursors)) := by
  intro c0 r1 r2
  have hlim1 : ∀ k, k ≤ P1.length →
      limitHit (projectLimit perLimits maxIssues project)
        (sumLen (P1.take k)) = false := by
    intro k hk
    have h := hlimc k (by simp; omega)
    rwa [List.take_append_of_le_length hk] at h
  have hlim2 : ∀ k, k ≤ P2.length →
      limitHit (projectLimit perLimits maxIssues project)
        (sumLen (P2.take k)) = false := by
    intro k hk
    have h := hlimc (P1.length + k) (by simp; omega)
    rw [show (P1 ++ P2).take (P1.length + k) = P1 ++ P2.take k by
      simp [List.take_append_eq_append_take]] at h
    rw [sumLen_append] at h
    exact limitHit_mono _ _ _ (Nat.le_add_left _ _) h
  have hr1 : r1 = ⟨P1.flatten, c0 + sumLen P1, cursorTrail c0 P1,
      sumLen P1, P1.length, .interrupted⟩ := by
    show scrapeProject _ _ _ _ _ = _
    rw [scrapeProject, ← List.append_nil (oks P1),
      scrapeLoop_oks (projectLimit perLimits maxIssues project) P1 []
        (lookupCursor progress project) 0 0 [] [] hne1
        (fun k hk => by simpa using hlim1 k hk),
      scrapeLoop_nil _ _ _ _ _ _
        (by simpa using hlim1 P1.length le_rfl)]
    simp
  have hsave : lookupCursor (progressAfter progress project r1) project =
      c0 + sumLen P1 := by
    rw [progressAfter, hr1]
    dsimp only
    rw [cursorTrail_getLast_ne c0 P1 hp1]
    exact lookupCursor_upsert progress project (c0 + sumLen P1)
  have hr2 : r2 = ⟨P2.flatten, c0 + sumLen P1 + sumLen P2,
      cursorTrail (c0 + sumLen P1) P2, sumLen P2, P2.length, .interrupted⟩ := by
    show scrapeProject _ _ _ _ _ = _
    rw [scrapeProject, hsave, ← List.append_nil (oks P2),
      scrapeLoop_oks (projectLimit perLimits maxIssues project) P2 []
        (c0 + sumLen P1) 0 0 [] [] hne2
        (fun k hk => by simpa using hlim2 k hk),
      scrapeLoop_nil _ _ _ _ _ _
        (by simpa using hlim2 P2.length le_rfl)]
    simp
  have hfull : (scrapeProject perLimits maxIssues progress project
      (oks (P1 ++ P2))).savedCursors = cursorTrail c0 (P1 ++ P2) := by
    rw [scrapeProject, ← List.append_nil (oks (P1 ++ P2)),
      scrapeLoop_oks (projectLimit perLimits maxIssues project) (P1 ++ P2) []
        (lookupCursor progress project) 0 0 [] []
        (fun l hl => by
          rcases List.mem_append.mp hl with h | h
          · exact hne1 l h
          · exact hne2 l h)
        (fun k hk => by simpa using hlimc k hk),
      scrapeLoop_nil _ _ _ _ _ _
        (by
          have h := hlimc (P1 ++ P2).length le_rfl
          rw [List.take_length] at h
          simpa using h)]
    simp
  refine ⟨by rw [hr1], ?_, by rw [hr1], hsave, by rw [hr2], ?_, ?_⟩
  · rw [hr1]
    exact cursorTrail_chain c0 P1
  · rw [hr1, hr2, hfull]
    dsimp only
    exact (cursorTrail_append c0 P1 P2).symm
  · rw [hr1, hr2]
    dsimp only
    rw [← cursorTrail_append c0 P1 P2]
    exact cursorTrail_chain c0 (P1 ++ P2)

/-- C6 witness: a run over two pages (sizes 2 and 1) from cursor 0,
interrupted, then resumed over one more page of size 3. -/
theorem c6_cursor_monotone_resumable_witness :
    (scrapeProject none none [] "KAFKA" (oks [[1, 2], [3]])).savedCursors =
      [2, 3] ∧
    lookupCursor
      (progressAfter [] "KAFKA"
        (scrapeProject none none [] "KAFKA" (oks [[1, 2], [3]]))) "KAFKA" = 3 := by
  have h := c6_cursor_monotone_resumable none none [] "KAFKA" [[1, 2], [3]]
    [[4, 5, 6]] (by decide) (by decide) (by decide) (fun k _ => rfl)
  refine ⟨?_, ?_⟩
  · rw [h.1]
    decide
  · rw [h.2.2.2.1]
    decide

/-- C7: with `perSourceLimit = 120` and four available full pages of 50,
exactly 3 fetches occur, the run accumulates 150 records (the third page
is not truncated), persists cursors 50, 100, 150 and stops with the
limit; in general, with an active limit `L` and every page at most `P`
records, the final fetched-count is below `L + P` — the run exceeds the
limit by less than one full page. -/
theorem c7_limit_overshoot_bound :
    scrapeProject none (some 120) [] "SPARK"
        (oks (List.replicate 4 (List.replicate 50 0))) =
      ⟨List.replicate 150 0, 150, [50, 100, 150], 150, 3, .limitReached⟩ ∧
    (∀ (L P : Nat) (inputs : List PageResult) (startAt : Nat),
      L ≠ 0 → (∀ p ∈ inputs, pageLen p ≤ P) →
      (scrapeLoop (some L) inputs startAt 0 [] [] 0).totalFetched < L + P) := by
  constructor
  · decide
  · intro L P inputs startAt hL hp
    exact scrapeLoop_overshoot L P inputs startAt 0 [] [] 0 hp (by omega)

/-- C7 witness: the general overshoot bound applied at the concrete
120-limit, 50-per-page run. -/
theorem c7_limit_overshoot_bound_witness :
    (scrapeLoop (some 120) (oks (List.replicate 4 (List.replicate 50 0)))
      0 0 [] [] 0).totalFetched < 170 :=
  c7_limit_overshoot_bound.2 120 50
    (oks (List.replicate 4 (List.replicate 50 0))) 0 (by decide) (by decide)

/-- C8: when the fetch for the next page rejects (fatal or retries
exhausted), the source's run stops with the caught-failure break: the
failed page contributes nothing to the output, no save happens for it,
the cursor stays at the last saved value (the resume point), and `main`
still visits every listed project in order. -/
theorem c8_failure_stops_source_only (perLimits : Option (List (String × Nat)))
    (maxIssues : Option Nat) (progress : List (String × Nat)) (project : String)
    (pages : List (List Nat)) (junk : List PageResult)
    (projects : List String) (env : String → List PageResult)
    (hne : ∀ l ∈ pages, l ≠ [])
    (hlim : ∀ k, k ≤ pages.length →
      limitHit (projectLimit perLimits maxIssues project)
        (sumLen (pages.take k)) = false) :
    let c0 := lookupCursor progress project
    let r := scrapeProject perLimits maxIssues progress project
      (oks pages ++ PageResult.failed :: junk)
    r.stop = .fetchFailed ∧
    r.fileContents = pages.flatten ∧
    r.savedCursors = cursorTrail c0 pages ∧
    r.cursorEnd = c0 + sumLen pages ∧
    (mainRun perLimits maxIssues projects progress env).map Prod.fst = projects := by
  intro c0 r
  have hrun : r = ⟨pages.flatten, c0 + sumLen pages, cursorTrail c0 pages,
      sumLen pages, pages.length + 1, .fetchFailed⟩ := by
    show scrapeProject _ _ _ _ _ = _
    rw [scrapeProject,
      scrapeLoop_oks (projectLimit perLimits maxIssues project) pages
        (PageResult.failed :: junk) (lookupCursor progress project) 0 0 [] [] hne
        (fun k hk => by simpa using hlim k hk),
      scrapeLoop_failed _ _ _ _ _ _ _
        (by simpa using hlim pages.length le_rfl)]
    simp
  rw [hrun]
  exact ⟨rfl, rfl, rfl, rfl, mainRun_projects perLimits maxIssues projects progress env⟩

/-- C8 witness: one successful page, then a failed fetch, in a two-project
run where the second project still gets scraped. -/
theorem c8_failure_stops_source_only_witness :
    (scrapeProject none none [] "SPARK"
        (oks [[1, 2]] ++ PageResult.failed :: [])).stop = .fetchFailed ∧
    (mainRun none none ["SPARK", "KAFKA"] []
        (fun _ => oks [[1, 2]] ++ PageResult.failed :: [])).map Prod.fst =
      ["SPARK", "KAFKA"] := by
  have h := c8_failure_stops_source_only none none [] "SPARK" [[1, 2]] []
    ["SPARK", "KAFKA"] (fun _ => oks [[1, 2]] ++ PageResult.failed :: [])
    (by decide) (fun k _ => rfl)
  exact ⟨h.1, h.2.2.2.2⟩

/-- C9: for any monotone wall clock (any per-acquisition lags), the grant
times produced by threading the rate limiter's `lastRequestTime` are at
least 200 ms apart pairwise, so K grants span at least (K−1)·200 ms from
first to last. -/
theorem c9_rate_limit_spacing (last0 : Nat) (env : List (Nat × Nat)) :
    (rlGrants last0 env).length = env.length ∧
    (∀ i, i + 1 < (rlGrants last0 env).length →
      (rlGrants last0 env).getD i 0 + 200 ≤ (rlGrants last0 env).getD (i + 1) 0) ∧
    ((rlGrants last0 env).getD 0 0 + (env.length - 1) * 200 ≤
      (rlGrants last0 env).getD (env.length - 1) 0) :=
  ⟨rlGrants_length env last0,
   fun i h => rlGrants_gap env last0 i h,
   rlGrants_elapsed env last0⟩

/-- C9 witness: three acquisitions under an adversarial clock (a long gap,
then immediate re-entry) still span at least 2 × 200 ms. -/
theorem c9_rate_limit_spacing_witness :
    (rlGrants 0 [(0, 0), (500, 7), (100, 0)]).getD 0 0 + 2 * 200 ≤
      (rlGrants 0 [(0, 0), (500, 7), (100, 0)]).getD 2 0 := by
  have h := (c9_rate_limit_spacing 0 [(0, 0), (500, 7), (100, 0)]).2.2
  simpa using h

/-- C10: whenever the loop issues a fetch (the limit check admitted it)
and the fetch succeeds with zero records, the run stops right there with
the empty-page break, whatever limit is configured and whatever was
fetched before: the fetch count is the prior pages plus this one and the
total is unchanged. -/
theorem c10_empty_page_exhausts (perLimits : Option (List (String × Nat)))
    (maxIssues : Option Nat) (progress : List (String × Nat)) (project : String)
    (pages : List (List Nat)) (junk : List PageResult)
    (hne : ∀ l ∈ pages, l ≠ [])
    (hlim : ∀ k, k ≤ pages.length →
      limitHit (projectLimit perLimits maxIssues project)
        (sumLen (pages.take k)) = false) :
    let r := scrapeProject perLimits maxIssues progress project
      (oks pages ++ PageResult.ok (some []) :: junk)
    r.stop = .exhausted ∧
    r.fetchCount = pages.length + 1 ∧
    r.totalFetched = sumLen pages := by
  intro r
  have hrun : r = ⟨pages.flatten, lookupCursor progress project + sumLen pages,
      cursorTrail (lookupCursor progress project) pages,
      sumLen pages, pages.length + 1, .exhausted⟩ := by
    show scrapeProject _ _ _ _ _ = _
    rw [scrapeProject,
      scrapeLoop_oks (projectLimit perLimits maxIssues project) pages
        (PageResult.ok (some []) :: junk) (lookupCursor progress project) 0 0 [] []
        hne (fun k hk => by simpa using hlim k hk),
      scrapeLoop_empty _ _ _ _ _ _ _
        (by simpa using hlim pages.length le_rfl)]
    simp
  rw [hrun]
  exact ⟨rfl, rfl, rfl⟩

/-- C10 witness: with an active limit of 1000 and 4 records already
fetched, an empty page still stops the run as exhausted on the third
fetch. -/
theorem c10_empty_page_exhausts_witness :
    (scrapeProject none (some 1000) [] "HADOOP"
        (oks [[1, 2], [3, 4]] ++ PageResult.ok (some []) :: [PageResult.failed])).stop =
      .exhausted ∧
    (scrapeProject none (some 1000) [] "HADOOP"
        (oks [[1, 2], [3, 4]] ++ PageResult.ok (some []) :: [PageResult.failed])).fetchCount = 3 := by
  have h := c10_empty_page_exhausts none (some 1000) [] "HADOOP"
    [[1, 2], [3, 4]] [PageResult.failed] (by decide)
    (fun k hk => by
      simp only [List.length_cons, List.length_nil] at hk
      interval_cases k <;> decide)
  exact ⟨h.1, h.2.1⟩

end WordScrape
